import Mathlib

/-!
Shallow embedding of the unified external-memory sort pipeline of this
repository (`cdc/puller/unified_sorter.go`) together with the small scheduler
collaborator (`integration/framework/avro_kafka_docker_env_test.go`), and
proofs checking the specification's claims against it.

Modelling conventions:
* machine integers (`uint64`, `int`) become `Nat`/`Int`; none of the modelled
  quantities can overflow in the scenarios considered;
* Go channels become explicit lists of messages; a `nil` received from a
  closed channel is `Option.none`;
* Go map iteration order is nondeterministic; the model fixes insertion
  order (the pending set is an association list kept in insertion order);
* `log.Fatal` and `panic` become explicit error outcomes;
* unbounded loops take a fuel argument; an exhausted fuel is reported as a
  distinct outcome (never silently treated as success);
* the 1 Hz wall-clock ticker of the merge loop becomes an oracle: a list of
  booleans saying, at each iteration that consults the ticker, whether it
  fired.
-/

set_option linter.unusedVariables false
set_option maxRecDepth 8000

namespace UnifiedSorter

/-! ## Data model: events -/

/-- Opcode of a raw KV entry, from `model.OpType` (Put / Delete / Resolved). -/
inductive OpType
  | put
  | delete
  | resolved
deriving DecidableEq, Repr

/-- Modelled from the spec: `model.RawKVEntry` (the `cdc/model` package is not
among the sources here).  Carries the opcode, the start and commit timestamps
and a region id; the opaque key/value payload bytes are irrelevant to every
claim and are omitted. -/
structure RawKVEntry where
  opType : OpType
  startTs : Nat
  crts : Nat
  regionId : Nat
deriving DecidableEq, Repr

/-- Modelled from the spec: `model.PolymorphicEvent`.  `rawKV` is a Go
pointer, hence an `Option`; `crts` and `startTs` mirror the top-level fields
kept in sync with `rawKV` by the constructors. -/
structure PolymorphicEvent where
  startTs : Nat
  crts : Nat
  rawKV : Option RawKVEntry
deriving DecidableEq, Repr

/-- Modelled from the spec: `model.NewResolvedPolymorphicEvent(regionID, ts)`
builds the Resolved control event carrying only a timestamp and a region id;
its `CRTs` is the timestamp. -/
def NewResolvedPolymorphicEvent (regionId ts : Nat) : PolymorphicEvent :=
  { startTs := 0, crts := ts,
    rawKV := some { opType := .resolved, startTs := 0, crts := ts, regionId := regionId } }

/-- Convenience constructor for a Put data event with the given commit and
start timestamps (mirrors `model.NewPolymorphicEvent` over a Put entry). -/
def putEvent (crts startTs : Nat) : PolymorphicEvent :=
  { startTs := startTs, crts := crts,
    rawKV := some { opType := .put, startTs := startTs, crts := crts, regionId := 0 } }

/-- The emission test of the merger drain loop
(`event.RawKV != nil && event.RawKV.OpType != model.OpTypeResolved`,
unified_sorter.go:505): true exactly for non-resolved events with a non-nil
`RawKV`. -/
def emitCheck (e : PolymorphicEvent) : Bool :=
  match e.rawKV with
  | some rk => rk.opType != OpType.resolved
  | none => false

/-! ## Constants (unified_sorter.go:23-28) -/

/-- Constant `heapSizeLimit` (4 MiB), unified_sorter.go:25. -/
def heapSizeLimit : Int := 4 * 1024 * 1024

/-- Constant `numConcurrentHeaps`, unified_sorter.go:26. -/
def numConcurrentHeaps : Nat := 16

/-- Constant `memoryLimit` (1 GiB), unified_sorter.go:27. -/
def memoryLimit : Int := 1024 * 1024 * 1024

/-- Value of `math.MaxUint64`. -/
def maxUint64 : Nat := 2 ^ 64 - 1

/-! ## File backend (unified_sorter.go:38-180)

The spill file is modelled at byte granularity: `content` is the file's
bytes, `pos` the file offset shared by the buffered reader and writer (the
code always flushes and rewinds between a write phase and a read phase, so
the buffering itself is unobservable), and `size` the backend's logical size
accounting field.  The msgp serialization of `RawKVEntry` is not among the
sources; `fileWriteNext` therefore takes the already-marshalled payload
bytes, and `fileReadNext` returns the payload bytes it recovers. -/

/-- State of a `fileSorterBackEnd`: file contents, shared cursor, logical
size field. -/
structure FileSorterBackEnd where
  content : List Nat
  pos : Nat
  size : Nat
deriving DecidableEq, Repr

/-- Little-endian `uint32` encoding used for the length prefix
(`binary.Write(..., binary.LittleEndian, uint32(size))`). -/
def u32LE (n : Nat) : List Nat :=
  [n % 256, n / 256 % 256, n / 65536 % 256, n / 16777216 % 256]

/-- Little-endian `uint32` decoding of four bytes. -/
def decodeU32LE (b0 b1 b2 b3 : Nat) : Nat :=
  b0 + 256 * b1 + 65536 * b2 + 16777216 * b3

/-- Write raw bytes at the current cursor, overwriting what is there and
advancing the cursor (the semantics of writing through the rewound file
descriptor). -/
def writeBytes (f : FileSorterBackEnd) (bs : List Nat) : FileSorterBackEnd :=
  { f with
    content := f.content.take f.pos ++ bs ++ f.content.drop (f.pos + bs.length),
    pos := f.pos + bs.length }

/-- Model of `fileSorterBackEnd.writeNext` (unified_sorter.go:160-180) applied
to the marshalled payload: writes the little-endian u32 length prefix, then
the payload bytes, then performs the size update exactly as the source does,
`f.size += f.size + 8` (line 178). -/
def fileWriteNext (f : FileSorterBackEnd) (payload : List Nat) : FileSorterBackEnd :=
  let f1 := writeBytes f (u32LE payload.length)
  let f2 := writeBytes f1 payload
  { f2 with size := f2.size + (f2.size + 8) }

/-- Model of `fileSorterBackEnd.getSize` (unified_sorter.go:62-64). -/
def fileGetSize (f : FileSorterBackEnd) : Int := f.size

/-- Model of `fileSorterBackEnd.flush` (unified_sorter.go:47-60): flush the
writer and rewind the cursor to offset 0. -/
def fileFlush (f : FileSorterBackEnd) : FileSorterBackEnd :=
  { f with pos := 0 }

/-- Model of `fileSorterBackEnd.reset` (unified_sorter.go:66-81).  The source
calls `f.f.Truncate(int64(f.size))` — truncating the file to the *logical
size field*, not to zero (`os.File.Truncate` pads with zero bytes when the
argument exceeds the current length) — then seeks to 0 and zeroes the size
field. -/
def fileReset (f : FileSorterBackEnd) : FileSorterBackEnd :=
  { content := f.content.take f.size ++ List.replicate (f.size - f.content.length) 0,
    pos := 0,
    size := 0 }

/-- Result of `fileSorterBackEnd.readNext` (unified_sorter.go:131-158):
`sentinel` is the `(nil, nil)` end-of-run return produced on `io.EOF`;
`event` carries the recovered payload bytes and the advanced backend;
`ioError` covers every other failed read (short read, `ErrUnexpectedEOF`). -/
inductive FileReadResult
  | sentinel (f : FileSorterBackEnd)
  | event (payload : List Nat) (f : FileSorterBackEnd)
  | ioError
deriving DecidableEq, Repr

/-- Model of `fileSorterBackEnd.readNext`: at end of file return the
sentinel; otherwise read the 4-byte length prefix and that many payload
bytes. -/
def fileReadNext (f : FileSorterBackEnd) : FileReadResult :=
  if f.content.length ≤ f.pos then .sentinel f
  else
    match (f.content.drop f.pos).take 4 with
    | [b0, b1, b2, b3] =>
      let n := decodeU32LE b0 b1 b2 b3
      if f.pos + 4 + n ≤ f.content.length then
        .event ((f.content.drop (f.pos + 4)).take n) { f with pos := f.pos + 4 + n }
      else .ioError
    | _ => .ioError

/-! ## Memory backend (unified_sorter.go:182-213) -/

/-- State of a `memorySorterBackEnd`: the event array and the read index. -/
structure MemorySorterBackEnd where
  events : List PolymorphicEvent
  readIndex : Nat
deriving DecidableEq, Repr

/-- Model of `memorySorterBackEnd.readNext` (unified_sorter.go:187-194). -/
def memReadNext (m : MemorySorterBackEnd) : Option PolymorphicEvent × MemorySorterBackEnd :=
  if h : m.readIndex < m.events.length then
    (some (m.events.get ⟨m.readIndex, h⟩), { m with readIndex := m.readIndex + 1 })
  else (none, m)

/-- Model of `memorySorterBackEnd.writeNext` (unified_sorter.go:196-199). -/
def memWriteNext (m : MemorySorterBackEnd) (e : PolymorphicEvent) : MemorySorterBackEnd :=
  { m with events := m.events ++ [e] }

/-- Model of `memorySorterBackEnd.getSize` (unified_sorter.go:201-203):
always the -1 sentinel. -/
def memGetSize (m : MemorySorterBackEnd) : Int := -1

/-- Model of `memorySorterBackEnd.reset` (unified_sorter.go:209-213):
`m.events = m.events[0:0]` clears the array, and the read index becomes 0. -/
def memReset (m : MemorySorterBackEnd) : MemorySorterBackEnd :=
  { events := [], readIndex := 0 }

/-! ## Backend pool (unified_sorter.go:215-283)

Only the state relevant to `dealloc` is modelled: the memory-use estimate and
the 256-slot cache, a slot being `true` when it holds a parked file backend
(a non-nil pointer) and `false` when it is free (nil). -/

/-- State of the `backEndPool` as seen by `dealloc`. -/
structure BackEndPool where
  memoryUseEstimate : Int
  cache : List Bool
deriving DecidableEq, Repr

/-- Which variant a `sorterBackEnd` is, the tag the `dealloc` type switch
branches on. -/
inductive SorterBackEndKind
  | memory
  | file
deriving DecidableEq, Repr

/-- Outcome of `backEndPool.dealloc`: a normal return with the updated pool,
or a run-time panic with its message. -/
inductive DeallocResult
  | ok (pool : BackEndPool)
  | panicked (pool : BackEndPool) (msg : String)
deriving DecidableEq, Repr

/-- The CAS parking loop of the file branch of `dealloc`
(unified_sorter.go:274-279): claim the first free (`false`) slot, or report
failure when every slot is occupied. -/
def parkFirstFree : List Bool → Option (List Bool)
  | [] => none
  | b :: rest =>
    if b then (parkFirstFree rest).map (fun r => b :: r)
    else some (true :: rest)

/-- Model of `backEndPool.dealloc` (unified_sorter.go:262-283) after the
initial `backEnd.reset()` has succeeded.  The memory branch credits
`heapSizeLimit` back and returns; the file branch tries to park the backend
into a cache slot and returns on success — but when every slot is occupied
control falls out of the type switch into `panic("Unexpected type")`
(line 282), without crediting the memory estimate and without deleting the
spill file. -/
def dealloc (p : BackEndPool) (kind : SorterBackEndKind) : DeallocResult :=
  match kind with
  | .memory => .ok { p with memoryUseEstimate := p.memoryUseEstimate - heapSizeLimit }
  | .file =>
    match parkFirstFree p.cache with
    | some cache1 => .ok { p with cache := cache1 }
    | none => .panicked p "Unexpected type"

/-! ## HeapSorter main loop (unified_sorter.go:379-412) -/

/-- Per-iteration state of `heapSorter.run`: the accumulators `maxResolved`
and `heapSizeBytesEstimate`, and the contents of the in-memory sort heap (as
the bag of pushed events; the heap ordering is irrelevant to the loop
itself). -/
structure HeapSorterState where
  maxResolved : Nat
  heapSizeBytesEstimate : Int
  heap : List PolymorphicEvent
deriving DecidableEq, Repr

/-- Outcome of one iteration of the `heapSorter.run` loop: a fatal exit
(`log.Fatal` or a nil-pointer dereference), or the next state together with
the `maxResolvedTs` of the flush that was issued, if one was. -/
inductive HeapSorterStepResult
  | fatal (msg : String)
  | ok (st : HeapSorterState) (flushedMaxResolvedTs : Option Nat)
deriving DecidableEq, Repr

/-- Model of one iteration of `heapSorter.run` (unified_sorter.go:386-411) on
a received event.  `approximateSize` stands for
`model.RawKVEntry.ApproximateSize` (not among the sources; any size function
works for every claim).  The event is pushed, a Resolved event whose CRTs
regresses below `maxResolved` is a fatal error, otherwise `maxResolved` is
updated, the size estimate accumulated, and a flush issued when the estimate
reaches `heapSizeLimit` or the event was Resolved. -/
def heapSorterStep (approximateSize : RawKVEntry → Int)
    (st : HeapSorterState) (event : PolymorphicEvent) : HeapSorterStepResult :=
  let heap1 := st.heap ++ [event]
  match event.rawKV with
  | none => .fatal "nil RawKV dereferenced"
  | some rk =>
    let isResolvedEvent := rk.opType == OpType.resolved
    if isResolvedEvent && decide (rk.crts < st.maxResolved) then
      .fatal "ResolvedTs regression, bug?"
    else
      let maxResolved1 := if isResolvedEvent then rk.crts else st.maxResolved
      let est := st.heapSizeBytesEstimate + approximateSize rk
      if heapSizeLimit ≤ est || isResolvedEvent then
        .ok { maxResolved := maxResolved1, heapSizeBytesEstimate := 0, heap := [] }
          (some maxResolved1)
      else
        .ok { maxResolved := maxResolved1, heapSizeBytesEstimate := est, heap := heap1 }
          none

/-! ## Scheduler collaborator (avro_kafka_docker_env_test.go:197-215) -/

/-- Value of `math.MaxInt32`, the initial running minimum. -/
def maxInt32 : Int := 2147483647

/-- Model of `schedulerImpl.getMinWorkloadCapture` on the computed
`workloads` table, taken as an association list in iteration order.  The
source's loop is reproduced exactly: the branch `if workload < minWorkLoad`
reassigns `minCapture` but never reassigns `minWorkLoad`, which stays at its
initial `math.MaxInt32`. -/
def getMinWorkloadCapture (workloads : List (String × Int)) : String :=
  let step := fun (acc : String × Int) (cw : String × Int) =>
    if cw.2 < acc.2 then (cw.1, acc.2) else acc
  (workloads.foldl step ("", maxInt32)).1

/-! ## Merger (unified_sorter.go:414-600)

A `flushTask` is identified by its pointer in Go; the model gives every task
a distinct `taskId`.  The task's backend is the sequence of events the flush
wrote to it (`readNext` pops from the front); a `none` backend is the empty
flush.  The completion channel is omitted: the model covers the executions
in which the write side finished without error, which is the regime of every
claim about the merge logic.  The pending set, a Go map iterated in
nondeterministic order, is fixed as an association list in insertion
order. -/

/-- The merger-relevant fields of a `flushTask` (unified_sorter.go:285-291). -/
structure MergerTask where
  taskId : Nat
  heapSorterId : Nat
  maxResolvedTs : Nat
  backend : Option (List PolymorphicEvent)
deriving DecidableEq, Repr

/-- One entry of the pending set: the task, the cached peeked event
(`pendingSet[task]`), and the unread remainder of its backend. -/
structure PendingEntry where
  task : MergerTask
  cache : Option PolymorphicEvent
  remaining : List PolymorphicEvent
deriving DecidableEq, Repr

/-- An item of the merge heap: the entry event (`sortItem.entry`, a Go
pointer that the prime phase can set to nil) and the owning task. -/
structure HeapItem where
  entry : Option PolymorphicEvent
  taskId : Nat
deriving DecidableEq, Repr

/-- Modelled from the spec: the merge-heap comparator.  The `sortItem` /
`sortHeap` definitions are not among the sources; the spec fixes the sort
key as lexicographic over `(CRTs, StartTs, ...)` with deterministic
tie-breaks, which the model realises by comparing `(crts, startTs)` and
breaking remaining ties by position (the pop operation takes the leftmost
minimum).  A nil entry is treated as minimal. -/
def heapItemLE (a b : HeapItem) : Bool :=
  match a.entry, b.entry with
  | none, _ => true
  | some _, none => false
  | some x, some y => decide (x.crts < y.crts) ||
      (x.crts == y.crts && decide (x.startTs ≤ y.startTs))

/-- Pop the leftmost minimal item of the merge heap, or `none` when it is
empty. -/
def popMin : List HeapItem → Option (HeapItem × List HeapItem)
  | [] => none
  | a :: rest =>
    match popMin rest with
    | none => some (a, [])
    | some (m, rest1) => if heapItemLE a m then some (a, rest) else some (m, a :: rest1)

/-- Look up a pending entry by task id. -/
def findPending (ps : List PendingEntry) (tid : Nat) : Option PendingEntry :=
  ps.find? (fun e => e.task.taskId == tid)

/-- Remove a task from the pending set (the `delete(pendingSet, task)` of the
EOF and retire paths; the associated `task.dealloc()` releases the backend,
which the model represents by dropping the entry). -/
def removePending (ps : List PendingEntry) (tid : Nat) : List PendingEntry :=
  ps.filter (fun e => e.task.taskId != tid)

/-- Update the pending entry of a task in place. -/
def updatePending (ps : List PendingEntry) (tid : Nat)
    (f : PendingEntry → PendingEntry) : List PendingEntry :=
  ps.map (fun e => if e.task.taskId == tid then f e else e)

/-- Disposition of one eligible pending entry in the prime phase of
`onMinResolvedTsUpdate` (unified_sorter.go:461-473), given the next event
(from the cache or the backend read) and the rest of the backend: an event
with `CRTs > minResolvedTs` is cached back and the task excluded from the
round (second component `none`), otherwise the cache is cleared and the
event — possibly the nil read off an exhausted backend — is pushed onto the
merge heap. -/
def primeAdmit (minResolvedTs : Nat) (e : PendingEntry)
    (event : Option PolymorphicEvent) (rem : List PolymorphicEvent) :
    PendingEntry × Option HeapItem :=
  match event with
  | some ev =>
    if minResolvedTs < ev.crts then
      ({ e with cache := some ev, remaining := rem }, none)
    else
      ({ e with cache := none, remaining := rem },
        some { entry := some ev, taskId := e.task.taskId })
  | none =>
    ({ e with cache := none, remaining := rem },
      some { entry := none, taskId := e.task.taskId })

/-- The prime step of an eligible pending entry, dispatching on the cached
event (`cache != nil`) or the backend read (`readNext`, nil when the backend
is exhausted). -/
def primeEntry (minResolvedTs : Nat) (e : PendingEntry) :
    PendingEntry × Option HeapItem :=
  if e.task.maxResolvedTs ≤ minResolvedTs then
    match e.cache, e.remaining with
    | some c, _ => primeAdmit minResolvedTs e (some c) e.remaining
    | none, [] => primeAdmit minResolvedTs e none []
    | none, x :: rest => primeAdmit minResolvedTs e (some x) rest
  else (e, none)

/-- The prime phase over the whole pending set, in iteration order:
the updated pending set and the heap items pushed, in push order. -/
def primeRound (minResolvedTs : Nat) (ps : List PendingEntry) :
    List PendingEntry × List HeapItem :=
  let results := ps.map (primeEntry minResolvedTs)
  (results.map Prod.fst, results.filterMap Prod.snd)

/-- Outcome of the drain loop of a merge round: normal completion with the
final pending set, a modelled run-time failure (nil-event dereference or a
heap item whose task is missing from the pending set), or exhausted fuel. -/
inductive DrainOutcome
  | done (pending : List PendingEntry)
  | failed (msg : String)
  | outOfFuel
deriving DecidableEq, Repr

/-- Result of one iteration of the drain loop: either the loop stops with an
outcome, or it continues with an updated pending set, heap and ticker
oracle. -/
inductive DrainIterOut
  | stop (oc : DrainOutcome)
  | step (pending : List PendingEntry) (heap : List HeapItem) (ticks : List Bool)
deriving DecidableEq, Repr

/-- One iteration of the drain loop of `onMinResolvedTsUpdate`
(unified_sorter.go:500-554).  Pop the minimal heap item, emit its event when
`emitCheck` passes, then read the owning task's next event: on a nil read
the task is deleted and deallocated (EOF path, lines 519-530); on
`CRTs ≥ minResolvedTs` the task is retired (lines 532-539 calling `retire`,
lines 481-499): the just-read event is discarded, and a *further* `readNext`
decides between deletion (nil) and caching *that* later event; otherwise the
event is pushed back and, when the 1 Hz ticker fired (the next boolean of
`ticks`), `Resolved(event.CRTs)` is emitted (lines 546-553). -/
def drainIter (minResolvedTs : Nat) (pending : List PendingEntry)
    (heap : List HeapItem) (ticks : List Bool) :
    List PolymorphicEvent × DrainIterOut :=
  match popMin heap with
  | none => ([], .stop (.done pending))
  | some (item, heap1) =>
    match item.entry with
    | none => ([], .stop (.failed "nil event dereferenced"))
    | some event =>
      let outs0 := if emitCheck event then [event] else []
      match findPending pending item.taskId with
      | none => (outs0, .stop (.failed "task missing from pendingSet"))
      | some e =>
        match e.remaining with
        | [] =>
          (outs0, .step (removePending pending item.taskId) heap1 ticks)
        | nextEv :: rest =>
          if minResolvedTs ≤ nextEv.crts then
            let pending1 :=
              match rest with
              | [] => removePending pending item.taskId
              | n2 :: r2 =>
                updatePending pending item.taskId
                  (fun e0 => { e0 with cache := some n2, remaining := r2 })
            (outs0, .step pending1 heap1 ticks)
          else
            let pending1 :=
              updatePending pending item.taskId
                (fun e0 => { e0 with remaining := rest })
            let heap2 := heap1 ++ [{ entry := some nextEv, taskId := item.taskId }]
            let tickStep : List PolymorphicEvent × List Bool :=
              match ticks with
              | true :: ts => ([NewResolvedPolymorphicEvent 0 nextEv.crts], ts)
              | false :: ts => ([], ts)
              | [] => ([], [])
            (outs0 ++ tickStep.1, .step pending1 heap2 tickStep.2)

/-- The drain loop of a merge round, iterating `drainIter` under a fuel
bound. -/
def drain (minResolvedTs : Nat) :
    Nat → List PendingEntry → List HeapItem → List Bool →
    List PolymorphicEvent × DrainOutcome
  | 0, pending, heap, _ =>
    (match popMin heap with
     | none => ([], .done pending)
     | some _ => ([], .outOfFuel))
  | fuel + 1, pending, heap, ticks =>
    match drainIter minResolvedTs pending heap ticks with
    | (outs, .stop oc) => (outs, oc)
    | (outs, .step pending1 heap1 ticks1) =>
      let next := drain minResolvedTs fuel pending1 heap1 ticks1
      (outs ++ next.1, next.2)

/-- Model of `onMinResolvedTsUpdate` (unified_sorter.go:433-563): prime the
round over the pending set, drain the merge heap, and on normal completion
emit the closing `Resolved(minResolvedTs)` marker
(`sendResolvedEvent(minResolvedTs)`, line 557). -/
def onMinResolvedTsUpdate (fuel minResolvedTs : Nat) (pending : List PendingEntry)
    (ticks : List Bool) : List PolymorphicEvent × DrainOutcome :=
  let primed := primeRound minResolvedTs pending
  let body := drain minResolvedTs fuel primed.1 primed.2 ticks
  match body.2 with
  | .done pending1 =>
    (body.1 ++ [NewResolvedPolymorphicEvent 0 minResolvedTs], .done pending1)
  | other => (body.1, other)

/-- State of the merger main loop (unified_sorter.go:414-418). -/
structure MergerState where
  lastResolvedTs : List Nat
  minResolvedTs : Nat
  pendingSet : List PendingEntry
deriving DecidableEq, Repr

/-- Initial merger state: `lastResolvedTs` all zero, `minResolvedTs = 0`,
empty pending set. -/
def initMergerState (numSorters : Nat) : MergerState :=
  { lastResolvedTs := List.replicate numSorters 0, minResolvedTs := 0, pendingSet := [] }

/-- The `minTemp` computation of the merger loop (unified_sorter.go:584-589):
fold the frontier array starting from `math.MaxUint64`. -/
def minTempOf (l : List Nat) : Nat :=
  l.foldl (fun a ts => if ts < a then ts else a) maxUint64

/-- The bookkeeping a received task triggers before any merge round
(unified_sorter.go:576-582): insert into the pending set only when the
backend is non-nil, and raise `lastResolvedTs[task.heapSorterId]` to
`task.maxResolvedTs` when larger. -/
def insertTask (st : MergerState) (task : MergerTask) : MergerState :=
  let pending1 :=
    match task.backend with
    | some run => st.pendingSet ++ [{ task := task, cache := none, remaining := run }]
    | none => st.pendingSet
  let old := st.lastResolvedTs.getD task.heapSorterId 0
  let last1 :=
    if old < task.maxResolvedTs then
      st.lastResolvedTs.set task.heapSorterId task.maxResolvedTs
    else st.lastResolvedTs
  { st with pendingSet := pending1, lastResolvedTs := last1 }

/-- Outcome of processing one flush task: the next state together with
whether a merge round ran, or a failure, or exhausted fuel. -/
inductive StepOutcome
  | ok (st : MergerState) (ranRound : Bool)
  | failed (msg : String)
  | outOfFuel
deriving DecidableEq, Repr

/-- Model of one iteration of the merger main loop on a received (non-nil)
task (unified_sorter.go:569-597): bookkeeping, then a merge round exactly
when `minTemp > minResolvedTs`. -/
def mergerStep (fuel : Nat) (st : MergerState) (task : MergerTask) (ticks : List Bool) :
    List PolymorphicEvent × StepOutcome :=
  let st1 := insertTask st task
  let minTemp := minTempOf st1.lastResolvedTs
  if st.minResolvedTs < minTemp then
    let st2 := { st1 with minResolvedTs := minTemp }
    let round := onMinResolvedTsUpdate fuel minTemp st2.pendingSet ticks
    match round.2 with
    | .done pending1 => (round.1, .ok { st2 with pendingSet := pending1 } true)
    | .failed m => (round.1, .failed m)
    | .outOfFuel => (round.1, .outOfFuel)
  else ([], .ok st1 false)

/-- Outcome of running the merger over a finite prefix of its input channel:
the input list was exhausted (in Go the loop would keep blocking), the nil
task of a closed channel was received and the loop returned the error
`"Unified Sorter: nil flushTask, exiting"` (unified_sorter.go:570-571), a
modelled failure, or exhausted fuel. -/
inductive LoopOutcome
  | finishedInput (st : MergerState)
  | nilFlushTask
  | failed (msg : String)
  | outOfFuel
deriving DecidableEq, Repr

/-- Model of the merger main loop `runMerger` (unified_sorter.go:565-600)
over a list of received tasks (`none` being the nil task read from the
closed channel).  `ticksList` supplies one ticker oracle per processed
task. -/
def runMergerLoop (fuel : Nat) :
    MergerState → List (Option MergerTask) → List (List Bool) →
    List PolymorphicEvent × LoopOutcome
  | st, [], _ => ([], .finishedInput st)
  | _, none :: _, _ => ([], .nilFlushTask)
  | st, some task :: rest, ticksList =>
    let tickSplit : List Bool × List (List Bool) :=
      match ticksList with
      | t :: tr => (t, tr)
      | [] => ([], [])
    match mergerStep fuel st task tickSplit.1 with
    | (outs, .ok st1 _) =>
      let next := runMergerLoop fuel st1 rest tickSplit.2
      (outs ++ next.1, next.2)
    | (outs, .failed m) => (outs, .failed m)
    | (outs, .outOfFuel) => (outs, .outOfFuel)

/-- Run the merger from the initial state with no ticker firings. -/
def runMerger (fuel numSorters : Nat) (tasks : List (Option MergerTask)) :
    List PolymorphicEvent × LoopOutcome :=
  runMergerLoop fuel (initMergerState numSorters) tasks []

/-- Whether the merger loop terminated cleanly, i.e. ran out of modelled
input without error.  In the source this corresponds to `runMerger` staying
in its receive loop (it has no error-free return path). -/
def isCleanExit : LoopOutcome → Bool
  | .finishedInput _ => true
  | _ => false

/-! ## Concrete scenarios used by the claims

Single merger over one heap sorter (`numSorters = 1`).  The runs below are
sorted ascending by the modelled sort key, as a heap sorter's flush
goroutine writes them. -/

/-- Scenario for the event-loss claim: a size-triggered flush (its run tagged
with the previously seen resolved ts 3) holding `Put@4` and two events with
CRTs 5. -/
def c1Task1 : MergerTask :=
  { taskId := 1, heapSorterId := 0, maxResolvedTs := 3,
    backend := some [putEvent 4 1, putEvent 5 2, putEvent 5 3] }

/-- Scenario for the event-loss claim: the empty flush (nil backend) produced
by the heap sorter on `Resolved@4`, advancing the frontier to 4. -/
def c1Task2 : MergerTask :=
  { taskId := 2, heapSorterId := 0, maxResolvedTs := 4, backend := none }

/-- Expected merger output on the event-loss scenario. -/
def c1Outputs : List PolymorphicEvent :=
  [NewResolvedPolymorphicEvent 0 3, putEvent 4 1, NewResolvedPolymorphicEvent 0 4]

/-- Expected final merger state on the event-loss scenario: the peeked
`putEvent 5 2` appears nowhere — only the event after it was cached. -/
def c1Final : MergerState :=
  { lastResolvedTs := [4], minResolvedTs := 4,
    pendingSet := [{ task := c1Task1, cache := some (putEvent 5 3), remaining := [] }] }

/-- Scenario for the resolved-barrier claim: a resolved-triggered flush at
ts 5 whose run holds `Put@4`, `Resolved@5` and a `Put` with CRTs 5 sorting
after the marker. -/
def c2Task1 : MergerTask :=
  { taskId := 1, heapSorterId := 0, maxResolvedTs := 5,
    backend := some [putEvent 4 1, NewResolvedPolymorphicEvent 0 5, putEvent 5 2] }

/-- Scenario for the resolved-barrier claim: the following resolved-triggered
flush at ts 7. -/
def c2Task2 : MergerTask :=
  { taskId := 2, heapSorterId := 0, maxResolvedTs := 7,
    backend := some [NewResolvedPolymorphicEvent 0 7] }

/-- Merger output on the resolved-barrier scenario: the non-resolved event
with CRTs 5 is emitted *after* the `Resolved(5)` marker. -/
def c2Outputs : List PolymorphicEvent :=
  [putEvent 4 1, NewResolvedPolymorphicEvent 0 5, putEvent 5 2,
    NewResolvedPolymorphicEvent 0 7]

/-- Scenario for the round-ordering claim: a size-triggered flush (run
tagged 3) holding a single `Put` with CRTs 5. -/
def c3Task1 : MergerTask :=
  { taskId := 1, heapSorterId := 0, maxResolvedTs := 3,
    backend := some [putEvent 5 2] }

/-- Scenario for the round-ordering claim: the resolved-triggered flush at
ts 5. -/
def c3Task2 : MergerTask :=
  { taskId := 2, heapSorterId := 0, maxResolvedTs := 5,
    backend := some [NewResolvedPolymorphicEvent 0 5] }

/-- The pending set reached after `c3Task1`'s round (which cached its event)
and the insertion of `c3Task2`, the state in which the round at
`minResolvedTs = 5` starts. -/
def c3Pending : List PendingEntry :=
  [ { task := c3Task1, cache := some (putEvent 5 2), remaining := [] },
    { task := c3Task2, cache := none, remaining := [NewResolvedPolymorphicEvent 0 5] } ]

/-- Invariant of the merge heap during a round cut at `minR`: every non-nil
entry's CRTs is at most `minR`. -/
def heapBelow (minR : Nat) (heap : List HeapItem) : Prop :=
  ∀ it ∈ heap, ∀ ev, it.entry = some ev → ev.crts ≤ minR

/-- A fresh, empty file backend. -/
def freshFile : FileSorterBackEnd := { content := [], pos := 0, size := 0 }

/-- File backend after writing one record with payload `[1, 2, 3]` and
flushing: seven bytes of content, logical size field 8. -/
def c8File : FileSorterBackEnd := fileFlush (fileWriteNext freshFile [1, 2, 3])

/-- The file backend of `c8File` after `reset()`: `Truncate(int64(f.size))`
zero-pads the seven content bytes to eight, the cursor rewinds, the size
field is cleared — the old record is still entirely present. -/
def c8Reset : FileSorterBackEnd := fileReset c8File

/-! ## Helper lemmas -/

/-- The CAS parking loop finds no slot when every slot is occupied. -/
theorem parkFirstFree_none (l : List Bool) (h : l.all (fun b => b) = true) :
    parkFirstFree l = none := by
  induction l with
  | nil => rfl
  | cons b rest ih =>
    simp only [List.all_cons, Bool.and_eq_true] at h
    simp only [parkFirstFree, h.1, if_true, ih h.2]
    rfl

/-- Setting an in-bounds index of a list to the value already there is the
identity. -/
theorem list_set_getD_self : ∀ (l : List Nat) (i : Nat), i < l.length →
    l.set i (l.getD i 0) = l
  | _ :: _, 0, _ => rfl
  | a :: l, i + 1, h =>
    congrArg (a :: ·) (list_set_getD_self l i (Nat.lt_of_succ_lt_succ h))

/-- Popping the merge heap returns a member, and the remainder's items are
all members of the original heap. -/
theorem popMin_mem : ∀ (l : List HeapItem) (it : HeapItem) (rest : List HeapItem),
    popMin l = some (it, rest) → it ∈ l ∧ ∀ x ∈ rest, x ∈ l := by
  intro l
  induction l with
  | nil => intro it rest h; exact absurd h (by simp [popMin])
  | cons a l ih =>
    intro it rest h
    simp only [popMin] at h
    cases hp : popMin l with
    | none =>
      rw [hp] at h
      obtain ⟨rfl, rfl⟩ : a = it ∧ ([] : List HeapItem) = rest := by
        simpa using h
      exact ⟨List.mem_cons_self a l, by simp⟩
    | some p =>
      obtain ⟨m, rest1⟩ := p
      rw [hp] at h
      by_cases hle : heapItemLE a m
      · obtain ⟨rfl, rfl⟩ : a = it ∧ l = rest := by simpa [hle] using h
        exact ⟨List.mem_cons_self a l, fun x hx => List.mem_cons_of_mem a hx⟩
      · obtain ⟨rfl, rfl⟩ : m = it ∧ a :: rest1 = rest := by simpa [hle] using h
        obtain ⟨hm, hrest1⟩ := ih m rest1 hp
        refine ⟨List.mem_cons_of_mem a hm, fun x hx => ?_⟩
        rcases List.mem_cons.mp hx with rfl | hx1
        · exact List.mem_cons_self x l
        · exact List.mem_cons_of_mem a (hrest1 x hx1)

/-- A resolved marker never passes the emission check. -/
theorem emitCheck_resolved (r ts : Nat) :
    emitCheck (NewResolvedPolymorphicEvent r ts) = false := rfl

/-- A heap item admitted by `primeAdmit` carries an event with
`CRTs ≤ minResolvedTs` (or a nil entry). -/
theorem primeAdmit_snd_le (minR : Nat) (e : PendingEntry)
    (event : Option PolymorphicEvent) (rem : List PolymorphicEvent) (it : HeapItem)
    (h : (primeAdmit minR e event rem).2 = some it) :
    ∀ ev, it.entry = some ev → ev.crts ≤ minR := by
  intro ev hev
  cases event with
  | none =>
    obtain rfl : ({ entry := none, taskId := e.task.taskId } : HeapItem) = it := by
      simpa [primeAdmit] using h
    simp at hev
  | some c =>
    by_cases hlt : minR < c.crts
    · simp [primeAdmit, hlt] at h
    · obtain rfl : ({ entry := some c, taskId := e.task.taskId } : HeapItem) = it := by
        simpa [primeAdmit, hlt] using h
      obtain rfl : c = ev := by simpa using hev
      exact Nat.not_lt.mp hlt

/-- A heap item produced by the prime step carries an event with
`CRTs ≤ minResolvedTs` (or a nil entry). -/
theorem primeEntry_snd_le (minR : Nat) (e : PendingEntry) (it : HeapItem)
    (h : (primeEntry minR e).2 = some it) :
    ∀ ev, it.entry = some ev → ev.crts ≤ minR := by
  by_cases hm : e.task.maxResolvedTs ≤ minR
  · simp only [primeEntry] at h
    rw [if_pos hm] at h
    cases hc : e.cache with
    | some c =>
      rw [hc] at h
      exact primeAdmit_snd_le minR e (some c) e.remaining it h
    | none =>
      cases hr : e.remaining with
      | nil =>
        rw [hc, hr] at h
        exact primeAdmit_snd_le minR e none [] it h
      | cons x rest =>
        rw [hc, hr] at h
        exact primeAdmit_snd_le minR e (some x) rest it h
  · simp only [primeEntry] at h
    rw [if_neg hm] at h
    exact absurd h (by simp)

/-- The merge heap built by the prime phase satisfies the round invariant:
every admitted event has `CRTs ≤ minResolvedTs`. -/
theorem primeRound_heapBelow (minR : Nat) (ps : List PendingEntry) :
    heapBelow minR (primeRound minR ps).2 := by
  intro it hit
  simp only [primeRound, List.mem_filterMap, List.mem_map] at hit
  obtain ⟨pr, ⟨e, _, rfl⟩, hsnd⟩ := hit
  exact primeEntry_snd_le minR e it hsnd

/-- Membership in the conditional singleton the drain loop emits. -/
theorem mem_emitIf {ev event : PolymorphicEvent}
    (h : ev ∈ (if emitCheck event then [event] else ([] : List PolymorphicEvent))) :
    ev = event := by
  by_cases hc : emitCheck event
  · rw [if_pos hc] at h; simpa using h
  · rw [if_neg hc] at h; simp at h

/-- One drain iteration preserves the round invariant: every event it emits
through `emitCheck` has `CRTs ≤ minResolvedTs`, and when the loop continues
the new heap again satisfies `heapBelow`. -/
theorem drainIter_le (minR : Nat) (pending : List PendingEntry) (heap : List HeapItem)
    (ticks : List Bool) (hinv : heapBelow minR heap) :
    (∀ ev ∈ (drainIter minR pending heap ticks).1, emitCheck ev = true → ev.crts ≤ minR) ∧
    ∀ p hp t, (drainIter minR pending heap ticks).2 = .step p hp t → heapBelow minR hp := by
  cases hpop : popMin heap with
  | none =>
    simp only [drainIter, hpop]
    exact ⟨by simp, by simp⟩
  | some pr =>
    obtain ⟨item, heap1⟩ := pr
    obtain ⟨hitem, hheap1⟩ := popMin_mem heap item heap1 hpop
    have hinv1 : heapBelow minR heap1 := fun x hx => hinv x (hheap1 x hx)
    cases hentry : item.entry with
    | none =>
      simp only [drainIter, hpop, hentry]
      exact ⟨by simp, by simp⟩
    | some event =>
      have hev : event.crts ≤ minR := hinv item hitem event hentry
      have houts0 : ∀ ev ∈ (if emitCheck event then [event] else ([] : List PolymorphicEvent)),
          emitCheck ev = true → ev.crts ≤ minR := by
        intro ev hmem _
        rw [mem_emitIf hmem]
        exact hev
      cases hfind : findPending pending item.taskId with
      | none =>
        simp only [drainIter, hpop, hentry, hfind]
        exact ⟨houts0, by simp⟩
      | some e =>
        cases hrem : e.remaining with
        | nil =>
          simp only [drainIter, hpop, hentry, hfind, hrem]
          refine ⟨houts0, ?_⟩
          intro p hp t hstep
          obtain ⟨rfl, rfl, rfl⟩ :
              removePending pending item.taskId = p ∧ heap1 = hp ∧ ticks = t := by
            simpa using hstep
          exact hinv1
        | cons nextEv rest =>
          by_cases hge : minR ≤ nextEv.crts
          · simp only [drainIter, hpop, hentry, hfind, hrem, if_pos hge]
            refine ⟨houts0, ?_⟩
            intro p hp t hstep
            cases rest with
            | nil =>
              obtain ⟨_, rfl, _⟩ :
                  removePending pending item.taskId = p ∧ heap1 = hp ∧ ticks = t := by
                simpa using hstep
              exact hinv1
            | cons n2 r2 =>
              obtain ⟨_, rfl, _⟩ :
                  updatePending pending item.taskId
                      (fun e0 => { e0 with cache := some n2, remaining := r2 }) = p ∧
                    heap1 = hp ∧ ticks = t := by
                simpa using hstep
              exact hinv1
          · simp only [drainIter, hpop, hentry, hfind, hrem, if_neg hge]
            have hlt : nextEv.crts ≤ minR := Nat.le_of_lt (Nat.lt_of_not_le hge)
            have hheap2 : heapBelow minR
                (heap1 ++ [{ entry := some nextEv, taskId := item.taskId }]) := by
              intro x hx
              rcases List.mem_append.mp hx with h1 | h2
              · exact hinv1 x h1
              · obtain rfl : x = ({ entry := some nextEv, taskId := item.taskId } : HeapItem) := by
                  simpa using h2
                intro ev hev2
                obtain rfl : nextEv = ev := by simpa using hev2
                exact hlt
            cases ticks with
            | nil =>
              refine ⟨?_, ?_⟩
              · intro ev hmem
                simp only [List.append_nil] at hmem
                exact houts0 ev hmem
              · intro p hp t hstep
                obtain ⟨_, rfl, _⟩ :
                    updatePending pending item.taskId
                        (fun e0 => { e0 with remaining := rest }) = p ∧
                      heap1 ++ [{ entry := some nextEv, taskId := item.taskId }] = hp ∧
                      ([] : List Bool) = t := by
                  simpa using hstep
                exact hheap2
            | cons tk ts =>
              cases tk with
              | true =>
                refine ⟨?_, ?_⟩
                · intro ev hmem hemit
                  rcases List.mem_append.mp hmem with h1 | h2
                  · exact houts0 ev h1 hemit
                  · obtain rfl : ev = NewResolvedPolymorphicEvent 0 nextEv.crts := by
                      simpa using h2
                    rw [emitCheck_resolved] at hemit
                    exact absurd hemit (by simp)
                · intro p hp t hstep
                  obtain ⟨_, rfl, _⟩ :
                      updatePending pending item.taskId
                          (fun e0 => { e0 with remaining := rest }) = p ∧
                        heap1 ++ [{ entry := some nextEv, taskId := item.taskId }] = hp ∧
                        ts = t := by
                    simpa using hstep
                  exact hheap2
              | false =>
                refine ⟨?_, ?_⟩
                · intro ev hmem
                  simp only [List.append_nil] at hmem
                  exact houts0 ev hmem
                · intro p hp t hstep
                  obtain ⟨_, rfl, _⟩ :
                      updatePending pending item.taskId
                          (fun e0 => { e0 with remaining := rest }) = p ∧
                        heap1 ++ [{ entry := some nextEv, taskId := item.taskId }] = hp ∧
                        ts = t := by
                    simpa using hstep
                  exact hheap2

/-- Every event the drain loop emits through `emitCheck` has
`CRTs ≤ minResolvedTs`, provided the merge heap satisfies the round
invariant. -/
theorem drain_emit_le (minR : Nat) :
    ∀ (fuel : Nat) (pending : List PendingEntry) (heap : List HeapItem) (ticks : List Bool),
      heapBelow minR heap →
      ∀ ev ∈ (drain minR fuel pending heap ticks).1, emitCheck ev = true → ev.crts ≤ minR := by
  intro fuel
  induction fuel with
  | zero =>
    intro pending heap ticks _ ev hmem
    simp only [drain] at hmem
    cases hpop : popMin heap <;> rw [hpop] at hmem <;> simp at hmem
  | succ fuel ih =>
    intro pending heap ticks hinv ev hmem hemit
    obtain ⟨hout, hstep⟩ := drainIter_le minR pending heap ticks hinv
    simp only [drain] at hmem
    cases hdi : drainIter minR pending heap ticks with
    | mk outs out =>
      rw [hdi] at hmem
      cases out with
      | stop oc =>
        simp only at hmem
        exact hout ev (by rw [hdi]; exact hmem) hemit
      | step p hp t =>
        simp only at hmem
        rcases List.mem_append.mp hmem with h1 | h2
        · exact hout ev (by rw [hdi]; exact h1) hemit
        · exact ih p hp t (hstep p hp t (by rw [hdi])) ev h2 hemit

/-- A merge round cut at `minResolvedTs` only emits non-resolved events with
`CRTs ≤ minResolvedTs`, and on normal completion its output ends with the
closing `Resolved(minResolvedTs)` marker. -/
theorem round_outputs_le (fuel minR : Nat) (pending : List PendingEntry) (ticks : List Bool) :
    (∀ ev ∈ (onMinResolvedTsUpdate fuel minR pending ticks).1,
      emitCheck ev = true → ev.crts ≤ minR) ∧
    ∀ pending1, (onMinResolvedTsUpdate fuel minR pending ticks).2 = .done pending1 →
      ∃ pre, (onMinResolvedTsUpdate fuel minR pending ticks).1 =
        pre ++ [NewResolvedPolymorphicEvent 0 minR] := by
  have hbody := drain_emit_le minR fuel (primeRound minR pending).1
    (primeRound minR pending).2 ticks (primeRound_heapBelow minR pending)
  cases hoc : (drain minR fuel (primeRound minR pending).1 (primeRound minR pending).2 ticks).2 with
  | done pending1 =>
    constructor
    · intro ev hmem hemit
      simp only [onMinResolvedTsUpdate, hoc] at hmem
      rcases List.mem_append.mp hmem with h1 | h2
      · exact hbody ev h1 hemit
      · obtain rfl : ev = NewResolvedPolymorphicEvent 0 minR := by simpa using h2
        rw [emitCheck_resolved] at hemit
        exact absurd hemit (by simp)
    · intro p1 _
      refine ⟨(drain minR fuel (primeRound minR pending).1 (primeRound minR pending).2 ticks).1, ?_⟩
      simp [onMinResolvedTsUpdate, hoc]
  | failed m =>
    constructor
    · intro ev hmem hemit
      simp only [onMinResolvedTsUpdate, hoc] at hmem
      exact hbody ev hmem hemit
    · intro p1 hdone
      simp [onMinResolvedTsUpdate, hoc] at hdone
  | outOfFuel =>
    constructor
    · intro ev hmem hemit
      simp only [onMinResolvedTsUpdate, hoc] at hmem
      exact hbody ev hmem hemit
    · intro p1 hdone
      simp [onMinResolvedTsUpdate, hoc] at hdone

/-- The bookkeeping phase of a merger iteration does not touch
`minResolvedTs`. -/
theorem insertTask_min (st : MergerState) (task : MergerTask) :
    (insertTask st task).minResolvedTs = st.minResolvedTs := rfl

/-- One successful merger iteration never decreases `minResolvedTs`. -/
theorem mergerStep_min_mono (fuel : Nat) (st : MergerState) (task : MergerTask)
    (ticks : List Bool) (outs : List PolymorphicEvent) (st1 : MergerState) (ran : Bool)
    (h : mergerStep fuel st task ticks = (outs, .ok st1 ran)) :
    st.minResolvedTs ≤ st1.minResolvedTs := by
  by_cases hmin : st.minResolvedTs < minTempOf (insertTask st task).lastResolvedTs
  · simp only [mergerStep] at h
    rw [if_pos hmin] at h
    cases hoc : (onMinResolvedTsUpdate fuel (minTempOf (insertTask st task).lastResolvedTs)
        (insertTask st task).pendingSet ticks).2 with
    | done p1 =>
      rw [hoc] at h
      simp only [Prod.mk.injEq, StepOutcome.ok.injEq] at h
      obtain ⟨-, hst, -⟩ := h
      rw [← hst]
      exact Nat.le_of_lt hmin
    | failed m =>
      rw [hoc] at h
      simp at h
    | outOfFuel =>
      rw [hoc] at h
      simp at h
  · simp only [mergerStep] at h
    rw [if_neg hmin] at h
    simp only [Prod.mk.injEq, StepOutcome.ok.injEq] at h
    obtain ⟨-, hst, -⟩ := h
    rw [← hst, insertTask_min]

/-- Over any run of the merger loop that consumes its whole input,
`minResolvedTs` never decreases. -/
theorem runMergerLoop_min_mono (fuel : Nat) :
    ∀ (tasks : List (Option MergerTask)) (st : MergerState) (ticksList : List (List Bool))
      (outs : List PolymorphicEvent) (st2 : MergerState),
      runMergerLoop fuel st tasks ticksList = (outs, .finishedInput st2) →
      st.minResolvedTs ≤ st2.minResolvedTs := by
  intro tasks
  induction tasks with
  | nil =>
    intro st ticksList outs st2 h
    obtain ⟨-, rfl⟩ : outs = [] ∧ st = st2 := by simpa [runMergerLoop] using h
    exact Nat.le_refl _
  | cons task rest ih =>
    intro st ticksList outs st2 h
    cases task with
    | none => simp [runMergerLoop] at h
    | some t =>
      cases ticksList with
      | nil =>
        simp only [runMergerLoop] at h
        cases hms : mergerStep fuel st t [] with
        | mk outs0 so =>
          rw [hms] at h
          cases so with
          | ok st3 ran =>
            simp only [Prod.mk.injEq] at h
            exact Nat.le_trans (mergerStep_min_mono fuel st t [] outs0 st3 ran hms)
              (ih st3 [] _ st2 (by rw [Prod.ext_iff]; exact ⟨rfl, h.2⟩))
          | failed m => simp at h
          | outOfFuel => simp at h
      | cons tk tr =>
        simp only [runMergerLoop] at h
        cases hms : mergerStep fuel st t tk with
        | mk outs0 so =>
          rw [hms] at h
          cases so with
          | ok st3 ran =>
            simp only [Prod.mk.injEq] at h
            exact Nat.le_trans (mergerStep_min_mono fuel st t tk outs0 st3 ran hms)
              (ih st3 tr _ st2 (by rw [Prod.ext_iff]; exact ⟨rfl, h.2⟩))
          | failed m => simp at h
          | outOfFuel => simp at h

/-- A merger input that ends with the nil task of a closed channel never
reaches the clean "input exhausted" outcome. -/
theorem runMergerLoop_none_not_clean (fuel : Nat) :
    ∀ (tasks : List MergerTask) (st : MergerState) (ticksList : List (List Bool)),
      isCleanExit (runMergerLoop fuel st (tasks.map some ++ [none]) ticksList).2 = false := by
  intro tasks
  induction tasks with
  | nil => intro st ticksList; rfl
  | cons t rest ih =>
    intro st ticksList
    cases ticksList with
    | nil =>
      simp only [List.map_cons, List.cons_append, runMergerLoop]
      cases hms : mergerStep fuel st t [] with
      | mk outs0 so =>
        cases so with
        | ok st3 ran => exact ih st3 []
        | failed m => rfl
        | outOfFuel => rfl
    | cons tk tr =>
      simp only [List.map_cons, List.cons_append, runMergerLoop]
      cases hms : mergerStep fuel st t tk with
      | mk outs0 so =>
        cases so with
        | ok st3 ran => exact ih st3 tr
        | failed m => rfl
        | outOfFuel => rfl

/-! ## Claim theorems -/

/-- Claim C1 (code bug): the claim says the drain loop, on reading a next
event with `CRTs ≥ minResolvedTs`, retires the task *caching that peeked
event*, so that no submitted non-resolved event is lost.  The code's
`retire` instead performs a second `readNext` and caches that later event —
the peeked one is dropped.  At the failing input (`c1Task1` holding
`Put@4, Put@5(startTs 2), Put@5(startTs 3)` with run tag 3, then the empty
flush `c1Task2` advancing the frontier to 4) the submitted non-resolved
event `putEvent 5 2` is neither emitted nor present in any cache or backend
remainder of the final state: it is lost, violating conservation. -/
theorem retire_loses_peeked_event :
    runMerger 100 1 [some c1Task1, some c1Task2] = (c1Outputs, .finishedInput c1Final) ∧
    (c1Task1.backend.getD []).contains (putEvent 5 2) = true ∧
    emitCheck (putEvent 5 2) = true ∧
    c1Outputs.contains (putEvent 5 2) = false ∧
    c1Final.pendingSet.all
      (fun p => !(p.cache == some (putEvent 5 2)) &&
        !(p.remaining.contains (putEvent 5 2))) = true :=
  ⟨rfl, rfl, rfl, rfl, rfl⟩

/-- Claim C2 (code bug): the claim says that after the merger emits
`Resolved(ts)` every later non-resolved event has `CRTs` strictly greater
than `ts`.  At the failing input (`c2Task1` whose run is
`Put@4, Resolved@5, Put@5` tagged 5, then `c2Task2` = `Resolved@7` tagged 7)
the first round's retire path discards the `Resolved@5` record and caches
the following `Put` with CRTs 5; the round closes with `Resolved(5)`, and
the next round emits that cached `Put` with CRTs `5 ≤ 5` *after* the
marker — the barrier is violated (output index 1 is the marker, index 2 the
late event). -/
theorem resolved_barrier_violated :
    runMerger 100 1 [some c2Task1, some c2Task2] =
      (c2Outputs,
        .finishedInput { lastResolvedTs := [7], minResolvedTs := 7, pendingSet := [] }) ∧
    c2Outputs.get? 1 = some (NewResolvedPolymorphicEvent 0 5) ∧
    c2Outputs.get? 2 = some (putEvent 5 2) ∧
    emitCheck (putEvent 5 2) = true ∧
    (putEvent 5 2).crts ≤ 5 :=
  ⟨rfl, rfl, rfl, rfl, Nat.le_refl 5⟩

/-- Claim C3, counterexample: the claim says every event emitted in round R
has `CRTs` *strictly* less than `minResolvedTs_R`.  The prime phase only
excludes events with `CRTs > minResolvedTs` (strict, unified_sorter.go:461),
so an event with `CRTs = minResolvedTs` enters the round and is emitted: in
the round at `minResolvedTs = 5` over `c3Pending` (reached by feeding
`c3Task1` then `c3Task2`), `putEvent 5 2` with CRTs 5 is emitted, and
`5 < 5` is false. -/
theorem round_emits_event_at_min :
    runMerger 100 1 [some c3Task1, some c3Task2] =
      ([NewResolvedPolymorphicEvent 0 3, putEvent 5 2, NewResolvedPolymorphicEvent 0 5],
        .finishedInput { lastResolvedTs := [5], minResolvedTs := 5, pendingSet := [] }) ∧
    onMinResolvedTsUpdate 100 5 c3Pending [] =
      ([putEvent 5 2, NewResolvedPolymorphicEvent 0 5], .done []) ∧
    emitCheck (putEvent 5 2) = true ∧
    decide ((putEvent 5 2).crts < 5) = false :=
  ⟨rfl, rfl, rfl, rfl⟩

/-- Claim C3, amended: every non-resolved event a merge round cut at
`minResolvedTs_R` emits has `CRTs ≤ minResolvedTs_R` (equality is
possible), and on normal completion the closing `Resolved(minResolvedTs_R)`
marker is emitted after all of them. -/
theorem round_emit_le_min (fuel minR : Nat) (pending : List PendingEntry)
    (ticks : List Bool) :
    (∀ ev ∈ (onMinResolvedTsUpdate fuel minR pending ticks).1,
      emitCheck ev = true → ev.crts ≤ minR) ∧
    ∀ pending1, (onMinResolvedTsUpdate fuel minR pending ticks).2 = .done pending1 →
      ∃ pre, (onMinResolvedTsUpdate fuel minR pending ticks).1 =
        pre ++ [NewResolvedPolymorphicEvent 0 minR] :=
  round_outputs_le fuel minR pending ticks

/-- Witness for the amended C3 theorem at the concrete round of the
counterexample. -/
theorem round_emit_le_min_witness :
    putEvent 5 2 ∈ (onMinResolvedTsUpdate 100 5 c3Pending []).1 ∧
    emitCheck (putEvent 5 2) = true ∧
    (putEvent 5 2).crts ≤ 5 :=
  ⟨by decide, rfl,
    (round_emit_le_min 100 5 c3Pending []).1 (putEvent 5 2) (by decide) rfl⟩

/-- Claim C4 (code bug): the claim says a file-backend `dealloc` with every
cache slot occupied completes normally, crediting `heapSizeLimit` back,
deleting the spill file and returning without error or panic.  In the code
the CAS loop falls out of the type switch into `panic("Unexpected type")`
(unified_sorter.go:282); no memory is credited and no file is deleted (the
function contains no deletion call at all). -/
theorem dealloc_full_cache_panics (p : BackEndPool) (h : p.cache.all (fun b => b) = true) :
    dealloc p .file = .panicked p "Unexpected type" := by
  simp [dealloc, parkFirstFree_none p.cache h]

/-- Witness for the full-cache `dealloc` panic at a pool with all 256 slots
occupied. -/
theorem dealloc_full_cache_panics_witness :
    (({ memoryUseEstimate := 0, cache := List.replicate 256 true } :
        BackEndPool).cache.all (fun b => b) = true) ∧
    dealloc { memoryUseEstimate := 0, cache := List.replicate 256 true } .file =
      .panicked { memoryUseEstimate := 0, cache := List.replicate 256 true }
        "Unexpected type" :=
  ⟨by decide, dealloc_full_cache_panics _ (by decide)⟩

/-- Claim C5: on receipt of a flush task the merger raises
`lastResolvedTs[task.heapSorterId]` to the maximum of its previous value and
`task.maxResolvedTs`, inserts the task into the pending set exactly when its
backend is non-nil, runs a merge round if and only if the recomputed minimum
strictly exceeds the current `minResolvedTs`, and `minResolvedTs` is
monotonically non-decreasing over the whole run. -/
theorem merger_frontier_invariants (fuel : Nat) (st : MergerState) (task : MergerTask)
    (ticks : List Bool) (h : task.heapSorterId < st.lastResolvedTs.length) :
    (insertTask st task).lastResolvedTs =
      st.lastResolvedTs.set task.heapSorterId
        (max (st.lastResolvedTs.getD task.heapSorterId 0) task.maxResolvedTs) ∧
    (task.backend = none → (insertTask st task).pendingSet = st.pendingSet) ∧
    (∀ run, task.backend = some run →
      (insertTask st task).pendingSet =
        st.pendingSet ++ [{ task := task, cache := none, remaining := run }]) ∧
    (∀ outs st1 ran, mergerStep fuel st task ticks = (outs, .ok st1 ran) →
      ((ran = true ↔ st.minResolvedTs < minTempOf (insertTask st task).lastResolvedTs) ∧
        st.minResolvedTs ≤ st1.minResolvedTs)) ∧
    ∀ (tasks : List (Option MergerTask)) (ticksList : List (List Bool))
      (outs : List PolymorphicEvent) (st2 : MergerState),
      runMergerLoop fuel st tasks ticksList = (outs, .finishedInput st2) →
      st.minResolvedTs ≤ st2.minResolvedTs := by
  refine ⟨?_, ?_, ?_, ?_, ?_⟩
  · by_cases hlt : st.lastResolvedTs.getD task.heapSorterId 0 < task.maxResolvedTs
    · show (if st.lastResolvedTs.getD task.heapSorterId 0 < task.maxResolvedTs then
          st.lastResolvedTs.set task.heapSorterId task.maxResolvedTs
        else st.lastResolvedTs) = _
      rw [if_pos hlt, Nat.max_eq_right (Nat.le_of_lt hlt)]
    · show (if st.lastResolvedTs.getD task.heapSorterId 0 < task.maxResolvedTs then
          st.lastResolvedTs.set task.heapSorterId task.maxResolvedTs
        else st.lastResolvedTs) = _
      rw [if_neg hlt, Nat.max_eq_left (Nat.not_lt.mp hlt)]
      exact (list_set_getD_self st.lastResolvedTs task.heapSorterId h).symm
  · intro hb
    simp [insertTask, hb]
  · intro run hb
    simp [insertTask, hb]
  · intro outs st1 ran hstep
    refine ⟨?_, mergerStep_min_mono fuel st task ticks outs st1 ran hstep⟩
    by_cases hmin : st.minResolvedTs < minTempOf (insertTask st task).lastResolvedTs
    · simp only [mergerStep] at hstep
      rw [if_pos hmin] at hstep
      cases hoc : (onMinResolvedTsUpdate fuel (minTempOf (insertTask st task).lastResolvedTs)
          (insertTask st task).pendingSet ticks).2 with
      | done p1 =>
        rw [hoc] at hstep
        simp only [Prod.mk.injEq, StepOutcome.ok.injEq] at hstep
        obtain ⟨-, -, hran⟩ := hstep
        rw [← hran]
        exact ⟨fun _ => hmin, fun _ => rfl⟩
      | failed m => rw [hoc] at hstep; simp at hstep
      | outOfFuel => rw [hoc] at hstep; simp at hstep
    · simp only [mergerStep] at hstep
      rw [if_neg hmin] at hstep
      simp only [Prod.mk.injEq, StepOutcome.ok.injEq] at hstep
      obtain ⟨-, -, hran⟩ := hstep
      rw [← hran]
      exact ⟨fun hf => absurd hf (by simp), fun hc => absurd hc hmin⟩
  · intro tasks ticksList outs st2 hloop
    exact runMergerLoop_min_mono fuel tasks st ticksList outs st2 hloop

/-- Witness for the merger bookkeeping theorem at the empty-flush task
`c1Task2` over the initial single-sorter state. -/
theorem merger_frontier_invariants_witness :
    c1Task2.heapSorterId < (initMergerState 1).lastResolvedTs.length ∧
    (insertTask (initMergerState 1) c1Task2).lastResolvedTs =
      (initMergerState 1).lastResolvedTs.set c1Task2.heapSorterId
        (max ((initMergerState 1).lastResolvedTs.getD c1Task2.heapSorterId 0)
          c1Task2.maxResolvedTs) :=
  ⟨by decide,
    (merger_frontier_invariants 10 (initMergerState 1) c1Task2 [] (by decide)).1⟩

/-- Claim C6: in the heap sorter's main loop, a Resolved event whose CRTs is
strictly below the current `maxResolved` is a fatal `ResolvedTsRegression`,
and a Resolved event with CRTs at least `maxResolved` is processed normally
(here: the resolved-triggered flush fires) with `maxResolved` updated to
that CRTs. -/
theorem heapSorter_resolved_regression (approximateSize : RawKVEntry → Int)
    (st : HeapSorterState) (event : PolymorphicEvent) (rk : RawKVEntry)
    (hrk : event.rawKV = some rk) (hop : rk.opType = OpType.resolved) :
    (rk.crts < st.maxResolved →
      heapSorterStep approximateSize st event = .fatal "ResolvedTs regression, bug?") ∧
    (st.maxResolved ≤ rk.crts →
      heapSorterStep approximateSize st event =
        .ok { maxResolved := rk.crts, heapSizeBytesEstimate := 0, heap := [] }
          (some rk.crts)) := by
  constructor
  · intro hlt
    simp [heapSorterStep, hrk, hop, hlt]
  · intro hle
    simp [heapSorterStep, hrk, hop, Nat.not_lt.mpr hle]

/-- Witness for the heap-sorter regression check: a `Resolved@5` against
`maxResolved = 10` is fatal, a `Resolved@12` flushes and raises
`maxResolved`. -/
theorem heapSorter_resolved_regression_witness :
    ((5 : Nat) < 10 ∧
      heapSorterStep (fun _ => 1)
          { maxResolved := 10, heapSizeBytesEstimate := 0, heap := [] }
          (NewResolvedPolymorphicEvent 0 5) = .fatal "ResolvedTs regression, bug?") ∧
    ((10 : Nat) ≤ 12 ∧
      heapSorterStep (fun _ => 1)
          { maxResolved := 10, heapSizeBytesEstimate := 0, heap := [] }
          (NewResolvedPolymorphicEvent 0 12) =
        .ok { maxResolved := 12, heapSizeBytesEstimate := 0, heap := [] } (some 12)) :=
  ⟨⟨by decide,
      (heapSorter_resolved_regression (fun _ => 1)
          { maxResolved := 10, heapSizeBytesEstimate := 0, heap := [] }
          (NewResolvedPolymorphicEvent 0 5)
          { opType := .resolved, startTs := 0, crts := 5, regionId := 0 }
          rfl rfl).1 (by decide)⟩,
    ⟨by decide,
      (heapSorter_resolved_regression (fun _ => 1)
          { maxResolved := 10, heapSizeBytesEstimate := 0, heap := [] }
          (NewResolvedPolymorphicEvent 0 12)
          { opType := .resolved, startTs := 0, crts := 12, regionId := 0 }
          rfl rfl).2 (by decide)⟩⟩

/-- Claim C7 (code bug): the claim says `getSize()` after writes of payloads
`p1..pn` returns the total bytes written, `Σ (4 + len pi)`.  The source's
accounting is `f.size += f.size + 8` (unified_sorter.go:178), i.e.
`size ↦ 2·size + 8` independently of the payload length: after two writes
of 3-byte payloads the size field is 24 while the bytes actually written
are `(4+3) + (4+3) = 14`. -/
theorem fileWriteNext_size_not_sum :
    (∀ (f : FileSorterBackEnd) (payload : List Nat),
      (fileWriteNext f payload).size = 2 * f.size + 8) ∧
    fileGetSize (fileWriteNext (fileWriteNext freshFile [1, 2, 3]) [1, 2, 3]) = 24 ∧
    (fileWriteNext (fileWriteNext freshFile [1, 2, 3]) [1, 2, 3]).content.length = 14 ∧
    decide ((24 : Int) = (4 + 3) + (4 + 3)) = false := by
  refine ⟨?_, rfl, rfl, rfl⟩
  intro f payload
  show f.size + (f.size + 8) = 2 * f.size + 8
  omega

/-- Claim C8 (code bug): the claim says `reset()` leaves any backend empty —
the file truncated to length 0 — and a `readNext()` right after returns the
end-of-run sentinel.  The memory variant does behave so, but the file
variant calls `Truncate(int64(f.size))`, not `Truncate(0)`
(unified_sorter.go:67): after writing one record and resetting, the file
still holds 8 bytes and `readNext` returns the old record, not the
sentinel. -/
theorem reset_leaves_stale_file_content :
    (∀ m : MemorySorterBackEnd,
      memReset m = { events := [], readIndex := 0 } ∧
      (memReadNext (memReset m)).1 = none) ∧
    c8File = { content := [3, 0, 0, 0, 1, 2, 3], pos := 0, size := 8 } ∧
    c8Reset = { content := [3, 0, 0, 0, 1, 2, 3, 0], pos := 0, size := 0 } ∧
    decide (c8Reset.content.length = 0) = false ∧
    fileReadNext c8Reset =
      .event [1, 2, 3] { content := [3, 0, 0, 0, 1, 2, 3, 0], pos := 7, size := 0 } :=
  ⟨fun m => ⟨rfl, rfl⟩, rfl, rfl, rfl, rfl⟩

/-- Claim C9: there is a workload table with two captures of different
workloads on which `getMinWorkloadCapture` returns a capture whose workload
is not the minimum: on `[("a", 1), ("b", 5)]` it returns `"b"` (whose
workload 5 exceeds the minimum 1), because `minWorkLoad` is never reassigned
in the comparison branch, so every later capture also passes the
comparison. -/
theorem getMinWorkloadCapture_not_minimum :
    getMinWorkloadCapture [("a", 1), ("b", 5)] = "b" ∧
    [("a", (1 : Int)), ("b", 5)].contains ("b", 5) = true ∧
    [("a", (1 : Int)), ("b", 5)].contains ("a", 1) = true ∧
    (1 : Int) < 5 := by
  refine ⟨rfl, rfl, rfl, ?_⟩
  norm_num

/-- Claim C10: a merger input stream that ends with the nil task of the
closed flush-task channel never terminates cleanly; processing `nil` returns
the `"nil flushTask, exiting"` error (unified_sorter.go:570-571), both from
the initial state and after processing real tasks — the facade's deferred
`close(sorterOutCh)` (unified_sorter.go:623) therefore makes the merger exit
with this error on normal shutdown. -/
theorem merger_nil_flushTask_error :
    (∀ (fuel : Nat) (tasks : List MergerTask) (st : MergerState)
      (ticksList : List (List Bool)),
      isCleanExit (runMergerLoop fuel st (tasks.map some ++ [none]) ticksList).2 = false) ∧
    runMergerLoop 10 (initMergerState numConcurrentHeaps) [none] [] =
      ([], .nilFlushTask) ∧
    runMergerLoop 100 (initMergerState 1) [some c1Task1, some c1Task2, none] [] =
      (c1Outputs, .nilFlushTask) :=
  ⟨fun fuel tasks st ticksList => runMergerLoop_none_not_clean fuel tasks st ticksList,
    rfl, rfl⟩

end UnifiedSorter
